import Mathlib

/-!
Verification development for the NNTile python wrapper sources:
the layer base class (`wrappers/python/nntile/layer/base_layer.py`) and, for
the parts of the engine whose implementation lives outside the sampled
sources, models taken from the specification (tiled tensors, tag-threaded
creation, the blocked matrix multiply, the drelu kernel and the tensor
lifecycle).
-/

/- ### Embedding of `nntile/layer/base_layer.py` -/

/-- Python global names that appear in the module `base_layer.py`. -/
inductive PyName where
  | tensorName
  | npName
  | listName
  | baseLayerName
  | starpuName
  deriving DecidableEq

/-- Python exceptions relevant to the layer code, following the error
taxonomy of the specification (§7) plus the built-in exceptions the module
can raise. -/
inductive PyErr where
  | notImplementedError
  | nameError : PyName → PyErr
  | sequenceError
  | useAfterFreeError
  deriving DecidableEq

/-- The global bindings created by `base_layer.py`: lines 14-16 bind
`tensor` (via `import nntile.tensor as tensor`), `np` (via
`import numpy as np`) and `List` (via `from typing import List`); the class
statement on line 18 binds `BaseLayer`.  Nothing else is bound at module
level. -/
def baseLayerModuleGlobals : List PyName :=
  [PyName.tensorName, PyName.npName, PyName.listName, PyName.baseLayerName]

/-- Name resolution at module scope: a global name resolves iff the module
bound it. -/
def resolvesGlobal (n : PyName) : Bool :=
  baseLayerModuleGlobals.contains n

/-- The method calls a `BaseLayer` entry point can make. -/
inductive LayerCall where
  | forwardAsyncCall
  | backwardAsyncCall
  | waitForAllCall
  deriving DecidableEq

/-- The calls made by the body of `BaseLayer.forward` (lines 37-38):
`self.forward_async()` then `starpu.wait_for_all()`. -/
def forwardCallSequence : List LayerCall :=
  [LayerCall.forwardAsyncCall, LayerCall.waitForAllCall]

/-- The calls made by the body of `BaseLayer.backward` (lines 44-45):
the source calls `self.forward_async()` (not `self.backward_async()`)
and then `starpu.wait_for_all()`. -/
def backwardCallSequence : List LayerCall :=
  [LayerCall.forwardAsyncCall, LayerCall.waitForAllCall]

/-- Evaluating the expression `starpu.wait_for_all()` at module scope:
Python first resolves the name `starpu`; an unresolved global raises
`NameError`. -/
def barrierEval : Except PyErr Unit :=
  if resolvesGlobal PyName.starpuName then Except.ok ()
  else Except.error (PyErr.nameError PyName.starpuName)

/-- `BaseLayer.forward_async` (lines 33-34) raises `NotImplementedError`. -/
def baseForwardAsync : Except PyErr Unit :=
  Except.error PyErr.notImplementedError

/-- `BaseLayer.backward_async` (lines 40-41) raises `NotImplementedError`. -/
def baseBackwardAsync : Except PyErr Unit :=
  Except.error PyErr.notImplementedError

/-- Running `BaseLayer.forward` given the outcome `fa` of the (virtual)
`self.forward_async()` call: an exception from `fa` propagates; otherwise
the barrier expression is evaluated. -/
def forwardRun (fa : Except PyErr Unit) : Except PyErr Unit :=
  match fa with
  | Except.ok _ => barrierEval
  | Except.error e => Except.error e

/-- Running `BaseLayer.backward` given the outcome `fa` of the (virtual)
`self.forward_async()` call — the body of `backward` (lines 44-45) invokes
`self.forward_async()`, not `self.backward_async()`, then the barrier. -/
def backwardRun (fa : Except PyErr Unit) : Except PyErr Unit :=
  match fa with
  | Except.ok _ => barrierEval
  | Except.error e => Except.error e

/-- C1: the call sequence of `BaseLayer.backward` is `forward_async`
followed by the barrier; the backward computation `backward_async` is never
invoked before the barrier (or at all).  This exhibits the defect: the
blocking `backward` entry point runs the forward computation. -/
theorem c1_backward_runs_forward_not_backward :
    backwardCallSequence = [LayerCall.forwardAsyncCall, LayerCall.waitForAllCall] ∧
    LayerCall.backwardAsyncCall ∉ backwardCallSequence := by
  constructor
  · rfl
  · decide

/-- C2: the module binds no global named `starpu`, so every call to
`BaseLayer.forward` or `BaseLayer.backward` whose `forward_async` step
succeeds reaches the barrier expression and raises `NameError`; and no
outcome of `forward_async` lets either blocking entry point complete
successfully. -/
theorem c2_barrier_raises_nameError :
    resolvesGlobal PyName.starpuName = false ∧
    (∀ fa : Except PyErr Unit, fa = Except.ok () →
      forwardRun fa = Except.error (PyErr.nameError PyName.starpuName) ∧
      backwardRun fa = Except.error (PyErr.nameError PyName.starpuName)) ∧
    (∀ fa : Except PyErr Unit, ∀ u : Unit,
      forwardRun fa ≠ Except.ok u ∧ backwardRun fa ≠ Except.ok u) := by
  refine ⟨rfl, ?_, ?_⟩
  · intro fa hfa
    subst hfa
    exact ⟨rfl, rfl⟩
  · intro fa u
    cases u
    cases fa with
    | ok v =>
      cases v
      refine ⟨fun h => ?_, fun h => ?_⟩
      · rw [show forwardRun (Except.ok ()) =
            Except.error (PyErr.nameError PyName.starpuName) from rfl] at h
        exact Except.noConfusion h
      · rw [show backwardRun (Except.ok ()) =
            Except.error (PyErr.nameError PyName.starpuName) from rfl] at h
        exact Except.noConfusion h
    | error e =>
      exact ⟨fun h => Except.noConfusion h, fun h => Except.noConfusion h⟩

/-- C2 witness: with a successfully completing `forward_async`, `forward`
raises `NameError` on the unbound global `starpu`. -/
theorem c2_barrier_raises_nameError_witness :
    forwardRun (Except.ok ()) = Except.error (PyErr.nameError PyName.starpuName) :=
  (c2_barrier_raises_nameError.2.1 (Except.ok ()) rfl).1

/-- C5 counterexample: calling `backward` on a freshly constructed
`BaseLayer` — i.e. with no prior `forward` — does not raise
`SequenceError`; it raises `NotImplementedError` from `forward_async`.
The source performs no state-machine check at all. -/
theorem c5_backward_without_forward_not_sequenceError :
    backwardRun baseForwardAsync = Except.error PyErr.notImplementedError ∧
    backwardRun baseForwardAsync ≠ Except.error PyErr.sequenceError := by
  refine ⟨rfl, fun h => ?_⟩
  rw [show backwardRun baseForwardAsync =
      Except.error PyErr.notImplementedError from rfl] at h
  injection h with h1
  cases h1

/-- C5 amended: the layer base class performs no sequencing check, so
`backward` invoked without a prior `forward` raises the error of its
`forward_async` call (`NotImplementedError` on the base class itself), and
`backward` never raises `SequenceError` unless the subclass's
`forward_async` itself does. -/
theorem c5_no_sequence_check :
    backwardRun baseForwardAsync = Except.error PyErr.notImplementedError ∧
    (∀ fa : Except PyErr Unit, fa ≠ Except.error PyErr.sequenceError →
      backwardRun fa ≠ Except.error PyErr.sequenceError) := by
  constructor
  · rfl
  · intro fa hfa
    cases fa with
    | ok v =>
      cases v
      intro h
      rw [show backwardRun (Except.ok ()) =
          Except.error (PyErr.nameError PyName.starpuName) from rfl] at h
      injection h with h1
      cases h1
    | error e =>
      intro h
      apply hfa
      cases h
      rfl

/-- C5 witness: a `backward_async`-less base layer invoked from the
uninitialized state yields `NotImplementedError`, not `SequenceError`. -/
theorem c5_no_sequence_check_witness :
    backwardRun (Except.error PyErr.notImplementedError) ≠
      Except.error PyErr.sequenceError :=
  c5_no_sequence_check.2 (Except.error PyErr.notImplementedError)
    (fun h => by injection h with h1; cases h1)

/- ### Blocked matrix multiply (spec §4.4, test `test_tensor_strassen.py`) -/

/-- The transpose-or-not view of a batch slice, as in the test (lines
85-86): `termA = A[:, :, i]` when the flag is clear and its transpose when
set. -/
def opMat (t : Bool) (M : Nat → Nat → ℚ) (i l : Nat) : ℚ :=
  if t then M l i else M i l

/-- Modelled from the spec: the kernel `nntile.nntile_core.tensor.strassen_*`
is not under `src/`; §4.4 prescribes recursively bisecting the shared
(contraction) dimension into sub-blocks combined with scale-and-accumulate
semantics.  `recShared f lo hi` is that bisection recursion, summing the
tile-level contributions `f l` for `lo ≤ l < hi`. -/
def recShared (f : Nat → ℚ) (lo hi : Nat) : ℚ :=
  if hi ≤ lo then 0
  else if hi = lo + 1 then f lo
  else recShared f lo ((lo + hi) / 2) + recShared f ((lo + hi) / 2) hi
termination_by hi - lo
decreasing_by
  · omega
  · omega

/-- The bisection recursion computes exactly the sum of the contributions
over the shared index range. -/
theorem recShared_eq_sum_aux (f : Nat → ℚ) (n : Nat) :
    ∀ lo hi, hi - lo ≤ n →
      recShared f lo hi = ∑ l ∈ Finset.Ico lo hi, f l := by
  induction n with
  | zero =>
    intro lo hi h
    rw [recShared]
    have h1 : hi ≤ lo := by omega
    rw [if_pos h1, Finset.Ico_eq_empty (by omega), Finset.sum_empty]
  | succ n ih =>
    intro lo hi h
    rw [recShared]
    by_cases h1 : hi ≤ lo
    · rw [if_pos h1, Finset.Ico_eq_empty (by omega), Finset.sum_empty]
    · rw [if_neg h1]
      by_cases h2 : hi = lo + 1
      · subst h2
        rw [if_pos rfl, Nat.Ico_succ_singleton, Finset.sum_singleton]
      · rw [if_neg h2]
        have hmid1 : lo ≤ (lo + hi) / 2 := by omega
        have hmid2 : (lo + hi) / 2 ≤ hi := by omega
        rw [ih lo ((lo + hi) / 2) (by omega), ih ((lo + hi) / 2) hi (by omega)]
        exact Finset.sum_Ico_consecutive f hmid1 hmid2

/-- The bisection recursion over `[lo, hi)` equals the plain sum. -/
theorem recShared_eq_sum (f : Nat → ℚ) (lo hi : Nat) :
    recShared f lo hi = ∑ l ∈ Finset.Ico lo hi, f l :=
  recShared_eq_sum_aux f (hi - lo) lo hi le_rfl

/-- Modelled from the spec: the distributed blocked matrix multiply
(`strassen_fp32` / `strassen_fp64`, not under `src/`).  Per §4.4 it
computes, per batch index `b`, `C := beta*C + alpha * op(A) @ op(B)` with
`beta` applied exactly once per output entry and the contraction performed
by the recursive bisection of the shared dimension.  Exact rational
arithmetic stands in for both floating-point dtypes. -/
def strassen (alpha : ℚ) (tA : Bool) (A : Nat → Nat → Nat → ℚ) (tB : Bool)
    (B : Nat → Nat → Nat → ℚ) (beta : ℚ) (C : Nat → Nat → Nat → ℚ)
    (sharedSize : Nat) : Nat → Nat → Nat → ℚ :=
  fun i j b =>
    beta * C i j b +
      alpha * recShared
        (fun l => opMat tA (fun x y => A x y b) i l *
          opMat tB (fun x y => B x y b) l j) 0 sharedSize

/-- The dense reference computation of the test (lines 83-87): for each
batch index `b`, `beta * C[:, :, b] + alpha * (termA @ termB)` where the
matrix product entry is the full sum over the shared dimension. -/
def denseMatmulRef (alpha : ℚ) (tA : Bool) (A : Nat → Nat → Nat → ℚ)
    (tB : Bool) (B : Nat → Nat → Nat → ℚ) (beta : ℚ)
    (C : Nat → Nat → Nat → ℚ) (sharedSize : Nat) : Nat → Nat → Nat → ℚ :=
  fun i j b =>
    beta * C i j b +
      alpha * ∑ l ∈ Finset.range sharedSize,
        opMat tA (fun x y => A x y b) i l * opMat tB (fun x y => B x y b) l j

/-- Squared Frobenius distance of two `m × n × nb` batched matrices,
summed over all batch slices; the test's tolerance check bounds the
per-slice Frobenius distance. -/
def frobSq (m n nb : Nat) (M N : Nat → Nat → Nat → ℚ) : ℚ :=
  ∑ b ∈ Finset.range nb, ∑ i ∈ Finset.range m, ∑ j ∈ Finset.range n,
    (M i j b - N i j b) ^ 2

/-- C3: for every alpha, beta, transpose-flag combination, operand
contents, shared-dimension size and batch index, the blocked multiply
equals the dense reference entrywise; hence the squared Frobenius distance
is zero and in particular lies within the squared relative tolerance
`(1e-4)^2 = 1e-8` for every matrix shape and batch count (covering the
`[8,8]`, `alpha=0.5`, `beta=-0.5`, `batch=3` configurations of the test). -/
theorem c3_strassen_matches_dense_reference
    (alpha beta : ℚ) (tA tB : Bool) (A B C : Nat → Nat → Nat → ℚ)
    (sharedSize : Nat) :
    (∀ i j b, strassen alpha tA A tB B beta C sharedSize i j b =
      denseMatmulRef alpha tA A tB B beta C sharedSize i j b) ∧
    (∀ m n nb, frobSq m n nb (strassen alpha tA A tB B beta C sharedSize)
      (denseMatmulRef alpha tA A tB B beta C sharedSize) = 0) ∧
    (∀ m n nb, frobSq m n nb (strassen alpha tA A tB B beta C sharedSize)
      (denseMatmulRef alpha tA A tB B beta C sharedSize) ≤
      1 / 10 ^ 8 *
        frobSq m n nb (denseMatmulRef alpha tA A tB B beta C sharedSize)
          (fun _ _ _ => 0)) := by
  have hpt : ∀ i j b, strassen alpha tA A tB B beta C sharedSize i j b =
      denseMatmulRef alpha tA A tB B beta C sharedSize i j b := by
    intro i j b
    unfold strassen denseMatmulRef
    rw [recShared_eq_sum, Finset.range_eq_Ico]
  refine ⟨hpt, ?_, ?_⟩
  · intro m n nb
    unfold frobSq
    apply Finset.sum_eq_zero
    intro b _
    apply Finset.sum_eq_zero
    intro i _
    apply Finset.sum_eq_zero
    intro j _
    rw [hpt i j b, sub_self]
    ring
  · intro m n nb
    have h0 : frobSq m n nb (strassen alpha tA A tB B beta C sharedSize)
        (denseMatmulRef alpha tA A tB B beta C sharedSize) = 0 := by
      unfold frobSq
      apply Finset.sum_eq_zero
      intro b _
      apply Finset.sum_eq_zero
      intro i _
      apply Finset.sum_eq_zero
      intro j _
      rw [hpt i j b, sub_self]
      ring
    rw [h0]
    apply mul_nonneg
    · norm_num
    · unfold frobSq
      apply Finset.sum_nonneg
      intro b _
      apply Finset.sum_nonneg
      intro i _
      apply Finset.sum_nonneg
      intro j _
      positivity

/-- C6: if `alpha = 0` or the shared dimension is empty, the blocked
multiply leaves every entry of `C` equal to `beta` times its original
value, independently of the contents of `A` and `B`. -/
theorem c6_beta_only_path
    (alpha beta : ℚ) (tA tB : Bool) (A B C : Nat → Nat → Nat → ℚ)
    (sharedSize : Nat) (h : alpha = 0 ∨ sharedSize = 0) :
    ∀ i j b, strassen alpha tA A tB B beta C sharedSize i j b =
      beta * C i j b := by
  intro i j b
  unfold strassen
  rcases h with h | h
  · rw [h]
    ring
  · rw [h]
    rw [show recShared (fun l => opMat tA (fun x y => A x y b) i l *
      opMat tB (fun x y => B x y b) l j) 0 0 = 0 from by rw [recShared]; simp]
    ring

/-- Concrete operand used in witnesses. -/
def exTensorA : Nat → Nat → Nat → ℚ := fun i j b => (i : ℚ) + 2 * j + b

/-- Concrete operand used in witnesses. -/
def exTensorB : Nat → Nat → Nat → ℚ := fun i j b => (i : ℚ) - j + 3 * b

/-- Concrete operand used in witnesses. -/
def exTensorC : Nat → Nat → Nat → ℚ := fun i j b => (i : ℚ) * j + b + 1

/-- C6 witness: with `alpha = 0`, `beta = -1/2`, a shared dimension of
size 4 and concrete operands, the blocked multiply returns `beta * C` at
entry `(1, 1, 2)`. -/
theorem c6_beta_only_path_witness :
    strassen 0 false exTensorA false exTensorB (-1 / 2) exTensorC 4 1 1 2 =
      -1 / 2 * exTensorC 1 1 2 :=
  c6_beta_only_path 0 (-1 / 2) false false exTensorA exTensorB exTensorC 4
    (Or.inl rfl) 1 1 2

/- ### Tile grid and host-buffer round trip (spec §4.1, §4.2) -/

/-- Number of grid cells along one dimension: `ceil(n / t)` (spec §4.1). -/
def ceilDiv (n t : Nat) : Nat := (n + t - 1) / t

/-- Pointwise bound check of a multi-index against a shape. -/
def withinShape : List Nat → List Nat → Bool
  | [], [] => true
  | i :: irest, n :: ns => decide (i < n) && withinShape irest ns
  | _, _ => false

/-- All entries positive (the constraint on tile shapes, spec §4.1). -/
def allPos : List Nat → Bool
  | [] => true
  | t :: ts => decide (0 < t) && allPos ts

/-- A grid-cell multi-index is inside the tile grid of `(shape, tile)`. -/
def cellInGrid : List Nat → List Nat → List Nat → Bool
  | [], [], [] => true
  | n :: ns, t :: ts, c :: cs => decide (c < ceilDiv n t) && cellInGrid ns ts cs
  | _, _, _ => false

/-- A local offset lies inside the clipped extent of a grid cell: full tile
extent except at boundary cells, which are clipped to the remaining extent
`n - c*t` (spec §4.1). -/
def offInTile : List Nat → List Nat → List Nat → List Nat → Bool
  | [], [], [], [] => true
  | n :: ns, t :: ts, c :: cs, o :: os =>
      decide (o < min t (n - c * t)) && offInTile ns ts cs os
  | _, _, _, _ => false

/-- The global multi-index addressed by grid cell `cell` and local offset
`off`: pointwise `cell*tile + off`. -/
def globalIndex (cell tile off : List Nat) : List Nat :=
  List.zipWith (· + ·) (List.zipWith (· * ·) cell tile) off

/-- Modelled from the spec: `from_array` / `import_host_buffer` (the C++
tensor implementation is not under `src/`).  It scatters a dense host
array into per-cell tile storage: cell `cell` holds, at local offset
`off` within its clipped extent, the host value at the corresponding
global index (spec §4.2, §6). -/
def importHostBuffer (shape tile : List Nat) (X : List Nat → ℚ) :
    List Nat → List Nat → Option ℚ :=
  fun cell off =>
    if cellInGrid shape tile cell && offInTile shape tile cell off then
      some (X (globalIndex cell tile off))
    else none

/-- Modelled from the spec: `to_array` / `export_host_buffer` gathers tile
storage back to the dense host array: the value at global index `idx` is
read from cell `idx / tile` at local offset `idx % tile` (spec §4.2, §6). -/
def exportHostBuffer (shape tile : List Nat)
    (storage : List Nat → List Nat → Option ℚ) : List Nat → Option ℚ :=
  fun idx =>
    storage (List.zipWith (· / ·) idx tile) (List.zipWith (· % ·) idx tile)

/-- A valid global index falls into a cell of the grid. -/
theorem div_lt_ceilDiv (i n t : Nat) (ht : 0 < t) (hi : i < n) :
    i / t < ceilDiv n t := by
  unfold ceilDiv
  rw [Nat.lt_iff_add_one_le, Nat.le_div_iff_mul_le ht, add_mul, one_mul]
  have h1 : i / t * t ≤ i := Nat.div_mul_le_self i t
  calc i / t * t + t ≤ i + t := Nat.add_le_add_right h1 t
    _ ≤ n + t - 1 := by omega

/-- A valid global index's local offset is within the clipped extent of
its cell — the round trip never reads past a boundary tile. -/
theorem mod_lt_extent (i n t : Nat) (ht : 0 < t) (hi : i < n) :
    i % t < min t (n - i / t * t) := by
  have h1 : i / t * t + i % t = i := Nat.div_add_mod' i t
  have h2 : i % t < t := Nat.mod_lt i ht
  rw [lt_min_iff]
  refine ⟨h2, ?_⟩
  generalize hq : i / t * t = a at h1
  generalize hr : i % t = r at h1 h2 ⊢
  omega

/-- The cell of every valid index is in the grid. -/
theorem cellInGrid_of_withinShape :
    ∀ (shape tile idx : List Nat), tile.length = shape.length →
      allPos tile = true → withinShape idx shape = true →
      cellInGrid shape tile (List.zipWith (· / ·) idx tile) = true := by
  intro shape
  induction shape with
  | nil =>
    intro tile idx hlen hpos hin
    cases tile with
    | nil =>
      cases idx with
      | nil => rfl
      | cons i irest => simp [withinShape] at hin
    | cons t ts => simp at hlen
  | cons n ns ih =>
    intro tile idx hlen hpos hin
    cases tile with
    | nil => simp at hlen
    | cons t ts =>
      cases idx with
      | nil => simp [withinShape] at hin
      | cons i irest =>
        simp only [withinShape, Bool.and_eq_true, decide_eq_true_eq] at hin
        simp only [allPos, Bool.and_eq_true, decide_eq_true_eq] at hpos
        simp only [List.length_cons, Nat.succ_inj] at hlen
        simp only [List.zipWith, cellInGrid, Bool.and_eq_true,
          decide_eq_true_eq]
        exact ⟨div_lt_ceilDiv i n t hpos.1 hin.1, ih ts irest hlen hpos.2 hin.2⟩

/-- The local offset of every valid index is within its cell's clipped
extent. -/
theorem offInTile_of_withinShape :
    ∀ (shape tile idx : List Nat), tile.length = shape.length →
      allPos tile = true → withinShape idx shape = true →
      offInTile shape tile (List.zipWith (· / ·) idx tile)
        (List.zipWith (· % ·) idx tile) = true := by
  intro shape
  induction shape with
  | nil =>
    intro tile idx hlen hpos hin
    cases tile with
    | nil =>
      cases idx with
      | nil => rfl
      | cons i irest => simp [withinShape] at hin
    | cons t ts => simp at hlen
  | cons n ns ih =>
    intro tile idx hlen hpos hin
    cases tile with
    | nil => simp at hlen
    | cons t ts =>
      cases idx with
      | nil => simp [withinShape] at hin
      | cons i irest =>
        simp only [withinShape, Bool.and_eq_true, decide_eq_true_eq] at hin
        simp only [allPos, Bool.and_eq_true, decide_eq_true_eq] at hpos
        simp only [List.length_cons, Nat.succ_inj] at hlen
        simp only [List.zipWith, offInTile, Bool.and_eq_true,
          decide_eq_true_eq]
        exact ⟨mod_lt_extent i n t hpos.1 hin.1, ih ts irest hlen hpos.2 hin.2⟩

/-- Cell-and-offset decomposition recomposes the original index. -/
theorem globalIndex_recompose :
    ∀ (tile idx : List Nat), idx.length = tile.length →
      globalIndex (List.zipWith (· / ·) idx tile) tile
        (List.zipWith (· % ·) idx tile) = idx := by
  intro tile
  induction tile with
  | nil =>
    intro idx hlen
    cases idx with
    | nil => rfl
    | cons i irest => simp at hlen
  | cons t ts ih =>
    intro idx hlen
    cases idx with
    | nil => simp at hlen
    | cons i irest =>
      simp only [List.length_cons, Nat.succ_inj] at hlen
      simp only [globalIndex, List.zipWith]
      have hrec := ih irest hlen
      simp only [globalIndex] at hrec
      rw [hrec]
      congr 1
      exact Nat.div_add_mod' i t

/-- C7: for every shape, positive tile shape of matching dimensionality,
dense host array `X` and in-bounds index, gathering after scattering
(`to_array` after `from_array`) returns exactly the host value: the round
trip is the identity, with every access inside the clipped extent of its
(possibly boundary) tile. -/
theorem c7_host_buffer_roundtrip (shape tile idx : List Nat)
    (X : List Nat → ℚ) (hlen : tile.length = shape.length)
    (hpos : allPos tile = true) (hin : withinShape idx shape = true) :
    exportHostBuffer shape tile (importHostBuffer shape tile X) idx =
      some (X idx) := by
  have hidxlen : idx.length = tile.length := by
    clear hpos
    induction shape generalizing tile idx with
    | nil =>
      cases tile with
      | nil =>
        cases idx with
        | nil => rfl
        | cons i irest => simp [withinShape] at hin
      | cons t ts => simp at hlen
    | cons n ns ih =>
      cases tile with
      | nil => simp at hlen
      | cons t ts =>
        cases idx with
        | nil => simp [withinShape] at hin
        | cons i irest =>
          simp only [withinShape, Bool.and_eq_true] at hin
          simp only [List.length_cons, Nat.succ_inj] at hlen ⊢
          exact ih ts irest hlen hin.2
  unfold exportHostBuffer importHostBuffer
  rw [cellInGrid_of_withinShape shape tile idx hlen hpos hin,
    offInTile_of_withinShape shape tile idx hlen hpos hin]
  simp only [Bool.and_self, if_pos]
  rw [globalIndex_recompose tile idx hidxlen]

/-- C7 witness: shape `[3, 2]` with tile shape `[2, 2]` (a boundary tile
in the first dimension) and the host array `X(i,j) = 10*i + j`: the round
trip returns the original value at index `[2, 1]`. -/
theorem c7_host_buffer_roundtrip_witness :
    exportHostBuffer [3, 2] [2, 2]
      (importHostBuffer [3, 2] [2, 2]
        (fun idx => ((10 * idx.headI + idx.tail.headI : Nat) : ℚ))) [2, 1] =
      some (((10 * 2 + 1 : Nat) : ℚ)) :=
  c7_host_buffer_roundtrip [3, 2] [2, 2] [2, 1]
    (fun idx => ((10 * idx.headI + idx.tail.headI : Nat) : ℚ))
    (by decide) (by decide) (by decide)

/- ### Tag-threaded tensor creation (spec §4.2, tests lines 47-64) -/

/-- Tensor traits: global shape and tile shape, as in
`nntile.tensor.TensorTraits(shape, tile_shape)`. -/
structure TensorTraits where
  shape : List Nat
  tileShape : List Nat

/-- Number of cells of the tile grid of some traits (`traits.grid.nelems`
in the tests): the product over dimensions of `ceil(shape_d / tile_d)`. -/
def gridNelems (tr : TensorTraits) : Nat :=
  (List.zipWith ceilDiv tr.shape tr.tileShape).prod

/-- Well-formed traits: matching dimensionality, positive shape and tile
entries (spec §3, §4.1). -/
def validTraits (tr : TensorTraits) : Bool :=
  decide (tr.shape.length = tr.tileShape.length) &&
    allPos tr.shape && allPos tr.tileShape

/-- Modelled from the spec: tensor creation
(`Tensor_fp32(traits, mpi_distr, next_tag)`, implementation not under
`src/`) consumes the supplied `next_tag`, reserves one dependency tag per
tile of its grid, and returns the incremented counter (`tensor.next_tag`),
per spec §4.2.  The result records the reserved half-open tag interval
`[fst, snd)`; `snd` is the returned `next_tag`. -/
def createTensor (tr : TensorTraits) (nextTag : Nat) : Nat × Nat :=
  (nextTag, nextTag + gridNelems tr)

/-- A sequence of tensor creations threaded through the shared tag
counter, as in the tests (`next_tag = A.next_tag` after each creation):
returns the reserved tag interval of each creation in order. -/
def createSeq : List TensorTraits → Nat → List (Nat × Nat)
  | [], _ => []
  | tr :: trs, nextTag =>
      createTensor tr nextTag :: createSeq trs (createTensor tr nextTag).2

/-- Every positive-dimension grid has at least one cell, so every valid
creation reserves at least one tag. -/
theorem prod_ceilDiv_pos :
    ∀ (shape tile : List Nat), allPos shape = true → allPos tile = true →
      0 < (List.zipWith ceilDiv shape tile).prod := by
  intro shape
  induction shape with
  | nil => intro tile _ _; simp
  | cons n ns ih =>
    intro tile hs ht
    cases tile with
    | nil => simp
    | cons t ts =>
      simp only [allPos, Bool.and_eq_true, decide_eq_true_eq] at hs ht
      simp only [List.zipWith, List.prod_cons]
      have h1 : 0 < ceilDiv n t := by
        unfold ceilDiv
        rw [Nat.lt_iff_add_one_le, Nat.le_div_iff_mul_le ht.1]
        omega
      exact Nat.mul_pos h1 (ih ts hs.2 ht.2)

/-- Every valid creation reserves at least one tag. -/
theorem gridNelems_pos (tr : TensorTraits) (h : validTraits tr = true) :
    0 < gridNelems tr := by
  unfold validTraits at h
  simp only [Bool.and_eq_true, decide_eq_true_eq] at h
  exact prod_ceilDiv_pos tr.shape tr.tileShape h.1.2 h.2

/-- Every interval in a creation sequence starts at or after the initial
counter and is non-empty when the traits are valid. -/
theorem createSeq_bounds :
    ∀ (trs : List TensorTraits) (t0 : Nat),
      (∀ tr ∈ trs, validTraits tr = true) →
      ∀ p ∈ createSeq trs t0, t0 ≤ p.1 ∧ p.1 < p.2 := by
  intro trs
  induction trs with
  | nil => intro t0 _ p hp; exact absurd hp (by simp [createSeq])
  | cons tr trs ih =>
    intro t0 hv p hp
    simp only [createSeq, List.mem_cons] at hp
    rcases hp with hp | hp
    · subst hp
      refine ⟨le_rfl, ?_⟩
      have := gridNelems_pos tr (hv tr (by simp))
      simp only [createTensor]
      omega
    · have h2 := ih (createTensor tr t0).2
        (fun x hx => hv x (by simp [hx])) p hp
      have := gridNelems_pos tr (hv tr (by simp))
      simp only [createTensor] at h2
      exact ⟨by omega, h2.2⟩

/-- C9: in any sequence of tensor creations threaded through the shared
tag counter (all traits well-formed), each creation consumes the supplied
`next_tag` and returns it incremented by the number of tags it reserves
(the grid size); the returned `next_tag` values are strictly increasing
along the sequence; and the reserved tag intervals are pairwise disjoint,
so no dependency tag is ever reused. -/
theorem c9_tag_threading (trs : List TensorTraits) (t0 : Nat)
    (hv : ∀ tr ∈ trs, validTraits tr = true) :
    (∀ tr nextTag, createTensor tr nextTag =
      (nextTag, nextTag + gridNelems tr)) ∧
    List.Pairwise (· < ·) ((createSeq trs t0).map Prod.snd) ∧
    List.Pairwise (fun p q => p.2 ≤ q.1) (createSeq trs t0) := by
  refine ⟨fun tr nextTag => rfl, ?_, ?_⟩
  · have key : ∀ (l : List TensorTraits) (t : Nat),
        (∀ tr ∈ l, validTraits tr = true) →
        List.Pairwise (fun p q => p.2 ≤ q.1) (createSeq l t) ∧
        List.Pairwise (· < ·) ((createSeq l t).map Prod.snd) := by
      intro l
      induction l with
      | nil => intro t _; exact ⟨List.Pairwise.nil, List.Pairwise.nil⟩
      | cons tr trs ih =>
        intro t hv2
        have hrest := ih (createTensor tr t).2
          (fun x hx => hv2 x (by simp [hx]))
        have hbounds := createSeq_bounds trs (createTensor tr t).2
          (fun x hx => hv2 x (by simp [hx]))
        have hpos := gridNelems_pos tr (hv2 tr (by simp))
        constructor
        · simp only [createSeq, List.pairwise_cons]
          refine ⟨fun q hq => (hbounds q hq).1, hrest.1⟩
        · simp only [createSeq, List.map_cons, List.pairwise_cons]
          constructor
          · intro b hb
            simp only [List.mem_map] at hb
            obtain ⟨q, hq, hqb⟩ := hb
            have := hbounds q hq
            subst hqb
            simp only [createTensor] at this ⊢
            omega
          · exact hrest.2
    exact (key trs t0 hv).2
  · have key : ∀ (l : List TensorTraits) (t : Nat),
        (∀ tr ∈ l, validTraits tr = true) →
        List.Pairwise (fun p q => p.2 ≤ q.1) (createSeq l t) := by
      intro l
      induction l with
      | nil => intro t _; exact List.Pairwise.nil
      | cons tr trs ih =>
        intro t hv2
        have hrest := ih (createTensor tr t).2
          (fun x hx => hv2 x (by simp [hx]))
        have hbounds := createSeq_bounds trs (createTensor tr t).2
          (fun x hx => hv2 x (by simp [hx]))
        simp only [createSeq, List.pairwise_cons]
        exact ⟨fun q hq => (hbounds q hq).1, hrest⟩
    exact key trs t0 hv

/-- C9 witness: the three tensors of the strassen test helper
(`A : [8,4,3]`, `B : [4,8,3]`, `C : [8,8,3]`, tile shape `[2,2,1]`)
threaded from tag 0 produce strictly increasing returned counters. -/
theorem c9_tag_threading_witness :
    List.Pairwise (· < ·)
      ((createSeq [⟨[8, 4, 3], [2, 2, 1]⟩, ⟨[4, 8, 3], [2, 2, 1]⟩,
        ⟨[8, 8, 3], [2, 2, 1]⟩] 0).map Prod.snd) :=
  (c9_tag_threading
    [⟨[8, 4, 3], [2, 2, 1]⟩, ⟨[4, 8, 3], [2, 2, 1]⟩, ⟨[8, 8, 3], [2, 2, 1]⟩]
    0 (by decide)).2.1

/- ### Tensor lifecycle (spec §4.2, tests' `unregister` calls) -/

/-- The operations a caller can invoke on a tensor handle. -/
inductive TensorOp where
  | fromArrayOp
  | toArrayOp
  | applyKernelOp
  | unregisterOp
  deriving DecidableEq

/-- Modelled from the spec: the tensor lifecycle (implementation not under
`src/`).  A tensor is live from registration until `unregister`; per §4.2
an operation on an unregistered tensor — including a second `unregister` —
raises `UseAfterFreeError`.  The state is whether the tile storage is
live. -/
def stepOp : TensorOp → Bool → Except PyErr Bool
  | TensorOp.unregisterOp, true => Except.ok false
  | _, false => Except.error PyErr.useAfterFreeError
  | _, true => Except.ok true

/-- Running a sequence of operations on a tensor from a liveness state;
the first error aborts the run. -/
def runOps : List TensorOp → Bool → Except PyErr Bool
  | [], live => Except.ok live
  | op :: ops, live =>
      match stepOp op live with
      | Except.ok live2 => runOps ops live2
      | Except.error e => Except.error e

/-- C10: on an unregistered tensor every operation — including a second
`unregister` — raises `UseAfterFreeError`; `unregister` on a live tensor
succeeds and leaves it unregistered; and in any run from a live tensor
that has already reached the unregistered state, the next operation
raises `UseAfterFreeError`. -/
theorem c10_use_after_free
    (ops1 : List TensorOp) (op : TensorOp)
    (h : runOps ops1 true = Except.ok false) :
    (∀ op2 : TensorOp, stepOp op2 false =
      Except.error PyErr.useAfterFreeError) ∧
    stepOp TensorOp.unregisterOp true = Except.ok false ∧
    runOps (ops1 ++ [op]) true = Except.error PyErr.useAfterFreeError := by
  refine ⟨fun op2 => ?_, rfl, ?_⟩
  · cases op2 <;> rfl
  · have key : ∀ (l : List TensorOp) (b : Bool),
        runOps l b = Except.ok false →
        runOps (l ++ [op]) b = Except.error PyErr.useAfterFreeError := by
      intro l
      induction l with
      | nil =>
        intro b hb
        simp only [runOps] at hb
        injection hb with hb2
        subst hb2
        simp only [List.nil_append, runOps]
        cases op <;> rfl
      | cons o os ih =>
        intro b hb
        simp only [runOps] at hb
        simp only [List.cons_append, runOps]
        cases hstep : stepOp o b with
        | ok b2 =>
          rw [hstep] at hb
          exact ih b2 hb
        | error e =>
          rw [hstep] at hb
          exact absurd hb (by intro hcon; exact Except.noConfusion hcon)
    exact key ops1 true h

/-- C10 witness: running `[unregister]` then `to_array` (as the strassen
test would if it touched `A` after `A.unregister()`) raises
`UseAfterFreeError`; likewise the second `unregister` of a double
`unregister` run. -/
theorem c10_use_after_free_witness :
    runOps [TensorOp.unregisterOp, TensorOp.toArrayOp] true =
      Except.error PyErr.useAfterFreeError ∧
    runOps [TensorOp.unregisterOp, TensorOp.unregisterOp] true =
      Except.error PyErr.useAfterFreeError :=
  ⟨(c10_use_after_free [TensorOp.unregisterOp] TensorOp.toArrayOp rfl).2.2,
   (c10_use_after_free [TensorOp.unregisterOp] TensorOp.unregisterOp rfl).2.2⟩

/- ### drelu (test `test_tensor_drelu.py`) -/

/-- Modelled from the spec: the elementwise kernel `nntile.tensor.drelu_*`
is not under `src/`; per §8 it produces `1` where the input is strictly
positive and `0` where it is strictly negative; the test's exact-equality
reference forces the value `0` at input `0`.  Exact rational arithmetic
stands in for both floating-point dtypes. -/
def drelu (x : ℚ) : ℚ := if 0 < x then 1 else 0

/-- First masked assignment of the test's reference (line 45):
`src_A[src_A < 0] = 0`. -/
def maskNegToZero (x : ℚ) : ℚ := if x < 0 then 0 else x

/-- Second masked assignment of the test's reference (line 46), applied to
the updated array: `src_A[src_A > 0] = 1`. -/
def maskPosToOne (x : ℚ) : ℚ := if 0 < x then 1 else x

/-- The test's numpy reference: both masked assignments in order. -/
def dreluReference (x : ℚ) : ℚ := maskPosToOne (maskNegToZero x)

/-- Applying an elementwise kernel to a `2 × 2` tile. -/
def tileMap2x2 (f : ℚ → ℚ) (M : Fin 2 → Fin 2 → ℚ) : Fin 2 → Fin 2 → ℚ :=
  fun i j => f (M i j)

/-- C8: `drelu` produces `1` at strictly positive inputs and `0` at
strictly negative inputs, and applied to any `2 × 2` tile it matches the
test's reference elementwise with exact equality. -/
theorem c8_drelu_matches_reference (x : ℚ) :
    (0 < x → drelu x = 1) ∧ (x < 0 → drelu x = 0) ∧
    (∀ (M : Fin 2 → Fin 2 → ℚ) (i j : Fin 2),
      tileMap2x2 drelu M i j = tileMap2x2 dreluReference M i j) := by
  refine ⟨fun hx => ?_, fun hx => ?_, fun M i j => ?_⟩
  · unfold drelu
    rw [if_pos hx]
  · unfold drelu
    rw [if_neg (by exact absurd · (by linarith))]
  · unfold tileMap2x2 drelu dreluReference maskPosToOne maskNegToZero
    rcases lt_trichotomy (M i j) 0 with h | h | h
    · rw [if_pos h, if_neg (not_lt.mpr (le_of_lt h)),
        if_neg (lt_irrefl (0 : ℚ))]
    · rw [h]
      norm_num
    · rw [if_neg (not_lt.mpr (le_of_lt h)), if_pos h, if_pos h]

/-- C8 witness: `drelu` maps `3/2` to `1` and `-2` to `0`. -/
theorem c8_drelu_matches_reference_witness :
    drelu (3 / 2) = 1 ∧ drelu (-2) = 0 :=
  ⟨(c8_drelu_matches_reference (3 / 2)).1 (by norm_num),
   (c8_drelu_matches_reference (-2)).2.1 (by norm_num)⟩
